import Mathlib

/-!
Verification of the koa-rbac role-based access-control middleware.

The development shallowly embeds the request-time core of the library:

* `findMatchingRuleWeight` (src/lib/rbac.js): the recursive role-graph
  resolver computing the inheritance depth ("weight") at which a
  permission query is satisfied, embedded with an explicit fuel
  parameter because the JavaScript recursion has no cycle guard.
* `preparePermissionList`, `allow`, `deny`, `check` (src/lib/rbac.js):
  construction-time validation of permission specifications.
* `isAllowed`, `isDenied`, `allowPermissions`, `denyPermissions`,
  `checkPermissions` (src/lib/rbac.js): the decision combinators over a
  request context carrying the access provider and the running
  `_allowedWeight`.
* `checkMiddleware`, `allowMiddleware`, `denyMiddleware`
  (src/koa-rbac.js): the rbac-a-based variant, whose resolver results
  (NaN for unsatisfied, a finite priority otherwise) are supplied as
  oracle inputs.

JavaScript behaviours are made explicit: a thrown TypeError is the
`RunResult.err` outcome, non-termination of the unguarded recursion is
`RunResult.fuelOut` (exhaustion at every fuel), `undefined` fields are
`Option.none`, and JavaScript truthiness is modelled where the source
branches on it.
-/

namespace KoaRbac

/-- Outcome of running an effectful piece of the JavaScript code:
a returned value, a thrown TypeError (`err`), or exhaustion of the fuel
bounding the unguarded recursion (`fuelOut`). -/
inductive RunResult (α : Type) where
  | val (a : α)
  | err
  | fuelOut
deriving DecidableEq, Repr

/-- A role object as returned by a provider's getRolePermissions: an
optional list of permission tokens and an optional list of parent role
names (absent fields are JavaScript `undefined`). -/
structure Role where
  permissions : Option (List String)
  inherited : Option (List String)
deriving DecidableEq, Repr

/-- The provider's getRolePermissions capability: `none` models the
provider returning `undefined` for an unknown role name. -/
abbrev Env := String → Option Role

/-- The inner permission loop of findMatchingRuleWeight: whether some
declared permission of the role occurs in the queried permission list
(`permissions.indexOf(role.permissions[j]) >= 0`); an absent
permissions field contributes nothing. -/
def directMatch (perms : List String) (role : Role) : Bool :=
  match role.permissions with
  | none => false
  | some ps => ps.any fun p => decide (p ∈ perms)

/-- The weight update performed when a queried permission is found at
the current depth: `if (weight === false || weight > depth) weight = depth`
(`none` models `weight === false`). -/
def updateWeight (depth : Nat) (found : Bool) (w : Option Nat) : Option Nat :=
  if found then
    match w with
    | none => some depth
    | some v => if depth < v then some depth else some v
  else w

/-- The `for (i = 0; i < roles.length; ++i)` loop of
findMatchingRuleWeight, threading the running weight. `rec` is the
recursive call into an inherited role list at depth + 1. Fetching an
unknown role yields `err` because the source then reads
`role.permissions` on `undefined`. Recursion into parents happens only
while `weight === false`. -/
def findLoop (env : Env) (perms : List String) (depth : Nat)
    (rec : List String → RunResult (Option Nat)) :
    List String → Option Nat → RunResult (Option Nat)
  | [], w => .val w
  | r :: rest, w =>
    match env r with
    | none => .err
    | some role =>
      match updateWeight depth (directMatch perms role) w, role.inherited with
      | none, some inh =>
        match rec inh with
        | .val none => findLoop env perms depth rec rest none
        | .val (some v) => findLoop env perms depth rec rest (some v)
        | .err => .err
        | .fuelOut => .fuelOut
      | none, none => findLoop env perms depth rec rest none
      | some v, _ => findLoop env perms depth rec rest (some v)

/-- Fuel-indexed embedding of `function * findMatchingRuleWeight(depth,
roles, provider, permissions)` from src/lib/rbac.js. The JavaScript
recursion carries no visited set, so the embedding spends one unit of
fuel per recursive expansion; `fuelOut` at every fuel witnesses
divergence of the original recursion. The result `.val none` is the
source's `false` (unsatisfied) and `.val (some w)` a satisfying weight. -/
def findMatchingRuleWeight : Nat → Nat → List String → Env → List String →
    RunResult (Option Nat)
  | 0, _, _, _, _ => .fuelOut
  | fuel + 1, depth, roles, env, perms =>
    findLoop env perms depth
      (fun inh => findMatchingRuleWeight fuel (depth + 1) inh env perms)
      roles none

/-- The cyclic role fixture from the repository's own test suite
(test/lib/rbac.test.js): cyclic1 inherits cyclic2 and cyclic2 inherits
cyclic1. -/
def cycEnv : Env := fun r =>
  match r with
  | "cyclic1" => some ⟨some ["crc1"], some ["cyclic2"]⟩
  | "cyclic2" => some ⟨some ["crc2"], some ["cyclic1"]⟩
  | _ => none

/-- Specification-side satisfaction predicate: starting from the role
list `roles`, some role reachable through `d` inheritance steps declares
a permission occurring in `perms`. Depth 0 is a directly listed role. -/
inductive MatchAt (env : Env) (perms : List String) : List String → Nat → Prop where
  | here {roles : List String} {r : String} {role : Role} {ps : List String} {p : String} :
      r ∈ roles → env r = some role → role.permissions = some ps →
      p ∈ ps → p ∈ perms → MatchAt env perms roles 0
  | there {roles : List String} {r : String} {role : Role} {inh : List String} {d : Nat} :
      r ∈ roles → env r = some role → role.inherited = some inh →
      MatchAt env perms inh d → MatchAt env perms roles (d + 1)

/-- An access provider, as consumed at request time: the role table
(getRolePermissions) and the role list getUserRoles yields for the
current request's identity (`none` models `undefined` for an unknown
identity). -/
structure Provider where
  env : Env
  userRoles : Option (List String)

/-- The per-request koa context state touched by the library: the
`_accessProvider` property installed by the rbac middleware (`none`
when the middleware was never applied) and the running `_allowedWeight`
(`none` models its initial `null`). -/
structure Ctx where
  accessProvider : Option Provider
  allowedWeight : Option Nat

/-- The context properties installed by `middleware(provider)`:
the provider is exposed and `_allowedWeight` starts at `null`. -/
def middlewareCtx (p : Provider) : Ctx :=
  { accessProvider := some p, allowedWeight := none }

/-- A combinator's binary decision: continue down the pipe, or restrict
(403 Forbidden or the configured redirect). -/
inductive Outcome where
  | pass
  | restrict
deriving DecidableEq, Repr

/-- The recording step of a satisfied allow: set the weight when unset,
otherwise take the minimum with the resolved weight. -/
def recordWeight (aw : Option Nat) (w : Nat) : Nat :=
  match aw with
  | none => w
  | some a => min a w

/-- Embedding of `function * isAllowed(ctx, permissions)` from
src/lib/rbac.js: without a provider it returns true; otherwise it
resolves the query, returns false only when the weight is `false` and
no allowed weight is recorded, and otherwise records
`min(_allowedWeight, ruleWeight)` (or sets it) and returns true. An
`undefined` role list from getUserRoles makes the resolver throw. -/
def isAllowed (fuel : Nat) (ctx : Ctx) (perms : List String) :
    RunResult (Bool × Ctx) :=
  match ctx.accessProvider with
  | none => .val (true, ctx)
  | some provider =>
    match provider.userRoles with
    | none => .err
    | some userRoles =>
      match findMatchingRuleWeight fuel 0 userRoles provider.env perms with
      | .err => .err
      | .fuelOut => .fuelOut
      | .val none =>
        match ctx.allowedWeight with
        | none => .val (false, ctx)
        | some _ => .val (true, ctx)
      | .val (some rw) =>
        match ctx.allowedWeight with
        | none => .val (true, { ctx with allowedWeight := some rw })
        | some aw => .val (true, { ctx with allowedWeight := some (min aw rw) })

/-- Embedding of `function * isDenied(ctx, permissions)` from
src/lib/rbac.js: without a provider it returns true (denied); otherwise
denied unless the weight is `false` or the recorded allowed weight is
strictly smaller than it. The context is never mutated. -/
def isDenied (fuel : Nat) (ctx : Ctx) (perms : List String) : RunResult Bool :=
  match ctx.accessProvider with
  | none => .val true
  | some provider =>
    match provider.userRoles with
    | none => .err
    | some userRoles =>
      match findMatchingRuleWeight fuel 0 userRoles provider.env perms with
      | .err => .err
      | .fuelOut => .fuelOut
      | .val none => .val false
      | .val (some rw) =>
        match ctx.allowedWeight with
        | none => .val true
        | some aw => if aw < rw then .val false else .val true

/-- The middleware returned by `allow(...)` (src/lib/rbac.js,
`function * allowPermissions(next)`): pass through when isAllowed,
restrict otherwise. -/
def allowPermissions (fuel : Nat) (perms : List String) (ctx : Ctx) :
    RunResult (Outcome × Ctx) :=
  match isAllowed fuel ctx perms with
  | .val (true, ctx') => .val (.pass, ctx')
  | .val (false, ctx') => .val (.restrict, ctx')
  | .err => .err
  | .fuelOut => .fuelOut

/-- The middleware returned by `deny(...)` (src/lib/rbac.js,
`function * denyPermissions(next)`): restrict when isDenied, pass
through otherwise. -/
def denyPermissions (fuel : Nat) (perms : List String) (ctx : Ctx) :
    RunResult (Outcome × Ctx) :=
  match isDenied fuel ctx perms with
  | .val true => .val (.restrict, ctx)
  | .val false => .val (.pass, ctx)
  | .err => .err
  | .fuelOut => .fuelOut

/-- The right conjunct `!(denyPermissions && (yield isDenied(this,
denyPermissions)))` of checkPermissions, evaluated on the context left
by the allow part. -/
def checkDenyPart (fuel : Nat) (dp : Option (List String)) (ctx' : Ctx) :
    RunResult (Outcome × Ctx) :=
  match dp with
  | none => .val (.pass, ctx')
  | some dperms =>
    match isDenied fuel ctx' dperms with
    | .val true => .val (.restrict, ctx')
    | .val false => .val (.pass, ctx')
    | .err => .err
    | .fuelOut => .fuelOut

/-- The middleware returned by `check(...)` (src/lib/rbac.js,
`function * checkPermissions(next)`): grants when
`(!allowPermissions || isAllowed) && !(denyPermissions && isDenied)`,
with JavaScript short-circuiting (isDenied is skipped when isAllowed
already failed). -/
def checkPermissions (fuel : Nat) (ap dp : Option (List String)) (ctx : Ctx) :
    RunResult (Outcome × Ctx) :=
  match ap with
  | none => checkDenyPart fuel dp ctx
  | some aperms =>
    match isAllowed fuel ctx aperms with
    | .val (true, ctx') => checkDenyPart fuel dp ctx'
    | .val (false, ctx') => .val (.restrict, ctx')
    | .err => .err
    | .fuelOut => .fuelOut

/-- One rule middleware applied within a request chain. -/
inductive RuleOp where
  | allowRule (perms : List String)
  | denyRule (perms : List String)
  | checkRule (ap dp : Option (List String))

/-- Run one rule middleware on the current context. -/
def runOp (fuel : Nat) (ctx : Ctx) : RuleOp → RunResult (Outcome × Ctx)
  | .allowRule perms => allowPermissions fuel perms ctx
  | .denyRule perms => denyPermissions fuel perms ctx
  | .checkRule ap dp => checkPermissions fuel ap dp ctx

/-- Ordering on recorded allowed weights with `none` (unset) as the
top: `weightLe new old` says the update can only set an unset weight or
decrease a set one, never unset or increase it. -/
def weightLe (newW oldW : Option Nat) : Prop :=
  oldW = none ∨ ∃ a b, newW = some a ∧ oldW = some b ∧ a ≤ b

/-- An entry of an array permission specification: a string, or a value
of any other type (which the source filters out). -/
inductive PermEntry where
  | str (s : String)
  | other
deriving DecidableEq, Repr

/-- A permission specification argument: a string (split on commas), an
array of entries, or a value of some other type; non-string non-array
values are split into truthy and falsy ones because `check` branches on
the truthiness of `permissions['allow']`. -/
inductive PermSpec where
  | str (s : String)
  | list (l : List PermEntry)
  | otherTruthy
  | otherFalsy
deriving DecidableEq, Repr

/-- The source's filter predicate
`(typeof perm === 'string') && perm.length`. -/
def entryKeep : PermEntry → Bool
  | .str s => !s.isEmpty
  | .other => false

/-- The string payload of a kept entry. -/
def entryVal : PermEntry → String
  | .str s => s
  | .other => ""

/-- An entry carrying no usable permission string: a non-string value
or the empty string. -/
def emptyEntry : PermEntry → Prop
  | .str s => s = ""
  | .other => True

/-- An empty permission specification in the sense of the claim: the
empty string, or a list all of whose entries are non-strings or empty
strings (including the empty list). -/
def IsEmptySpec : PermSpec → Prop
  | .str s => s = ""
  | .list l => ∀ e ∈ l, emptyEntry e
  | .otherTruthy => False
  | .otherFalsy => False

/-- JavaScript truthiness of a permission specification value: the
empty string is falsy, every array (even empty) is truthy. -/
def jsTruthy : PermSpec → Bool
  | .str s => !s.isEmpty
  | .list _ => true
  | .otherTruthy => true
  | .otherFalsy => false

/-- The two rule-construction failures thrown by src/lib/rbac.js, both
`InvalidRuleException` distinguished by message: 'Invalid permissions'
(the spec's InvalidPermissionQuery) and 'Missing permissions' (the
spec's MissingPermissions). -/
inductive RuleError where
  | invalidPermissions
  | missingPermissions
deriving DecidableEq, Repr

/-- Split a character list at every comma, keeping empty segments, as
JavaScript's `String.prototype.split(',')` does. -/
def splitCommaChars : List Char → List (List Char)
  | [] => [[]]
  | c :: cs =>
    if c = ',' then [] :: splitCommaChars cs
    else
      match splitCommaChars cs with
      | [] => [[c]]
      | g :: gs => (c :: g) :: gs

/-- JavaScript `permissions.split(PERMISSION_SEP)` with PERMISSION_SEP
a comma, defined over the character list so that it evaluates inside
the kernel. -/
def jsSplitComma (s : String) : List String :=
  (splitCommaChars s.data).map String.mk

/-- JavaScript `String.prototype.trim()`: drop leading and trailing
whitespace. -/
def jsTrim (s : String) : String :=
  String.mk
    (((s.data.dropWhile Char.isWhitespace).reverse.dropWhile
      Char.isWhitespace).reverse)

/-- The entry list a specification yields before filtering: a string is
`split(PERMISSION_SEP)` with PERMISSION_SEP a comma, an array is used
as is, anything else throws. -/
def specEntries : PermSpec → Option (List PermEntry)
  | .str s => some ((jsSplitComma s).map PermEntry.str)
  | .list l => some l
  | .otherTruthy => none
  | .otherFalsy => none

/-- Embedding of `preparePermissionList(permissions)` from
src/lib/rbac.js: split or reject by type, filter out non-string and
zero-length entries, then trim each survivor; an empty result throws
'Invalid permissions'. Note the source trims after filtering. -/
def preparePermissionList (spec : PermSpec) : Except RuleError (List String) :=
  match specEntries spec with
  | none => .error .invalidPermissions
  | some entries =>
    let toks := (entries.filter entryKeep).map fun e => jsTrim (entryVal e)
    if toks.isEmpty then .error .invalidPermissions else .ok toks

/-- Construction-time validation performed by `allow(permissions, ...)`
(src/lib/rbac.js): the permission list the returned middleware closes
over, or the construction-time error. -/
def allow (spec : PermSpec) : Except RuleError (List String) :=
  preparePermissionList spec

/-- Construction-time validation performed by `deny(permissions, ...)`
(src/lib/rbac.js). -/
def deny (spec : PermSpec) : Except RuleError (List String) :=
  preparePermissionList spec

/-- One optional key of the object given to `check`: prepared only when
present and truthy (`if (permissions['allow']) ... = preparePermissionList(...)`). -/
def prepOpt : Option PermSpec → Except RuleError (Option (List String))
  | none => .ok none
  | some s =>
    if jsTruthy s then (preparePermissionList s).map some else .ok none

/-- Construction-time validation performed by `check(permissions, ...)`
(src/lib/rbac.js): prepare the allow key, then the deny key; if neither
produced a list, throw 'Missing permissions'. -/
def check (allowSpec denySpec : Option PermSpec) :
    Except RuleError (Option (List String) × Option (List String)) :=
  match prepOpt allowSpec with
  | .error e => .error e
  | .ok ap =>
    match prepOpt denySpec with
    | .error e => .error e
    | .ok dp =>
      if ap.isNone && dp.isNone then .error .missingPermissions
      else .ok (ap, dp)

/-- A JavaScript number as produced around `ctx.rbac.check` in
src/koa-rbac.js: NaN (identity absent or permission unsatisfied), a
finite priority, or the Infinity default used for an absent key. -/
inductive Priority where
  | nan
  | fin (n : Nat)
  | inf
deriving DecidableEq, Repr

/-- The `isNaN` test. -/
def Priority.isNaN : Priority → Bool
  | .nan => true
  | _ => false

/-- JavaScript `<=` on these numbers: any comparison with NaN is false. -/
def Priority.jle : Priority → Priority → Bool
  | .nan, _ => false
  | _, .nan => false
  | .fin a, .fin b => a ≤ b
  | .fin _, .inf => true
  | .inf, .fin _ => false
  | .inf, .inf => true

/-- Injection of a resolver outcome (`none` = NaN) into a priority. -/
def Priority.ofRes : Option Nat → Priority
  | none => .nan
  | some w => .fin w

/-- Decision of the modern `checkMiddleware(permissions, ...)` from
src/koa-rbac.js, given for each of the allow/deny keys whether it is
present and, if so, what `ctx.rbac.check` resolved for it (`none` =
NaN). An absent key defaults to Infinity, and the middleware restricts
when `isNaN(allowedPriority) || (!isNaN(deniedPriority) &&
deniedPriority <= allowedPriority)`. -/
def checkMiddleware (allowKey denyKey : Option (Option Nat)) : Outcome :=
  let a : Priority := match allowKey with
    | none => .inf
    | some r => Priority.ofRes r
  let d : Priority := match denyKey with
    | none => .inf
    | some r => Priority.ofRes r
  if a.isNaN || (!d.isNaN && Priority.jle d a) then .restrict else .pass

/-- Statement of the specification's check rule, written from the
spec's words for comparison with `checkMiddleware`: the allowed weight
defaults to +infinity when no allow query is given, the denied weight
to Unsatisfied when no deny query is given, and the call grants iff the
allowed weight is satisfied and either the denied weight is Unsatisfied
or the allowed weight is strictly below the denied weight. -/
def specCheckGrant (allowKey denyKey : Option (Option Nat)) : Prop :=
  (allowKey ≠ some none) ∧
  (match denyKey with
   | none => True
   | some none => True
   | some (some wd) =>
     match allowKey with
     | none => False
     | some none => False
     | some (some wa) => wa < wd)

/-- Decision of the modern `allowMiddleware` (src/koa-rbac.js) given
whether a `ctx.rbac` property exists and what the check resolved:
without the rbac property it falls through to `next()`; with it, a
falsy priority (NaN or 0) restricts. -/
def allowMiddleware (hasRbac : Bool) (res : Option Nat) : Outcome :=
  if hasRbac then
    match res with
    | none => .restrict
    | some 0 => .restrict
    | some (_ + 1) => .pass
  else .pass

/-- Decision of the modern `denyMiddleware` (src/koa-rbac.js): without
the rbac property it restricts unconditionally; with it, a truthy
priority restricts. -/
def denyMiddleware (hasRbac : Bool) (res : Option Nat) : Outcome :=
  if hasRbac then
    match res with
    | none => .pass
    | some 0 => .pass
    | some (_ + 1) => .restrict
  else .restrict

/-- The acyclic role fixture of the repository's test suite
(test/lib/rbac.test.js). -/
def rolesEnv : Env := fun r =>
  match r with
  | "guest" => some ⟨some ["foo"], none⟩
  | "reader" => some ⟨some ["read"], some ["guest"]⟩
  | "writer" => some ⟨some ["create"], some ["reader"]⟩
  | "editor" => some ⟨some ["update"], some ["reader"]⟩
  | "director" => some ⟨some ["delete"], some ["editor"]⟩
  | "admin" => some ⟨some ["manage"], none⟩
  | _ => none

/-- Counterexample graph for the minimality claim: the first assigned
role r1 satisfies the query only at depth 2 (via a, then b), while the
second assigned role r2 satisfies it at depth 1 (via g); once the r1
branch records weight 2, the source skips r2's inheritance. -/
def cexEnv : Env := fun r =>
  match r with
  | "r1" => some ⟨some [], some ["a"]⟩
  | "a" => some ⟨none, some ["b"]⟩
  | "b" => some ⟨some ["x"], none⟩
  | "r2" => some ⟨none, some ["g"]⟩
  | "g" => some ⟨some ["x"], none⟩
  | _ => none

/-- Fixture with a role whose permission and parent lists are both
absent, next to a role that satisfies the query. -/
def c3Env : Env := fun r =>
  match r with
  | "e" => some ⟨none, none⟩
  | "b" => some ⟨some ["x"], none⟩
  | _ => none

end KoaRbac

namespace KoaRbac

/-- Unfolding of one iteration of the role loop. -/
theorem findLoop_cons (env : Env) (perms : List String) (depth : Nat)
    (rec : List String → RunResult (Option Nat)) (r : String)
    (rest : List String) (w : Option Nat) :
    findLoop env perms depth rec (r :: rest) w =
      match env r with
      | none => .err
      | some role =>
        match updateWeight depth (directMatch perms role) w, role.inherited with
        | none, some inh =>
          match rec inh with
          | .val none => findLoop env perms depth rec rest none
          | .val (some v) => findLoop env perms depth rec rest (some v)
          | .err => .err
          | .fuelOut => .fuelOut
        | none, none => findLoop env perms depth rec rest none
        | some v, _ => findLoop env perms depth rec rest (some v) := rfl

/-- Updating a set weight keeps it set. -/
theorem updateWeight_some (depth : Nat) (found : Bool) (v : Nat) :
    ∃ u, updateWeight depth found (some v) = some u := by
  unfold updateWeight
  cases found with
  | false => exact ⟨v, rfl⟩
  | true =>
    by_cases h : depth < v
    · exact ⟨depth, by simp [h]⟩
    · exact ⟨v, by simp [h]⟩

/-- A set weight never becomes unset along the loop. -/
theorem findLoop_some_of_some (env : Env) (perms : List String) (depth : Nat)
    (rec : List String → RunResult (Option Nat)) :
    ∀ (roles : List String) (v : Nat) (res : Option Nat),
      findLoop env perms depth rec roles (some v) = .val res →
      ∃ u, res = some u := by
  intro roles
  induction roles with
  | nil =>
    intro v res h
    exact ⟨v, (RunResult.val.injEq _ _ ▸ h :).symm⟩
  | cons r rest ih =>
    intro v res h
    rw [findLoop_cons] at h
    cases henv : env r with
    | none => rw [henv] at h; cases h
    | some role =>
      rw [henv] at h
      dsimp only at h
      obtain ⟨u, hu⟩ := updateWeight_some depth (directMatch perms role) v
      rw [hu] at h
      exact ih u res h

/-- Satisfaction is monotone in the starting role list. -/
theorem MatchAt.of_subset {env : Env} {perms : List String}
    {roles roles' : List String} {d : Nat}
    (hsub : ∀ x, x ∈ roles → x ∈ roles') (h : MatchAt env perms roles d) :
    MatchAt env perms roles' d := by
  cases h with
  | here hr henv hps hp hperm => exact .here (hsub _ hr) henv hps hp hperm
  | there hr henv hinh hm => exact .there (hsub _ hr) henv hinh hm

/-- A true direct match of a role present in the list satisfies the
query at relative depth 0. -/
theorem MatchAt.of_directMatch {env : Env} {perms : List String}
    {roles : List String} {r : String} {role : Role}
    (hr : r ∈ roles) (henv : env r = some role)
    (hdm : directMatch perms role = true) :
    MatchAt env perms roles 0 := by
  unfold directMatch at hdm
  cases hps : role.permissions with
  | none => rw [hps] at hdm; cases hdm
  | some ps =>
    rw [hps] at hdm
    obtain ⟨p, hp, hpp⟩ := List.any_eq_true.mp hdm
    exact .here hr henv hps hp (of_decide_eq_true hpp)

/-- Soundness of the loop: a weight it produces beyond the incoming one
comes from a genuine satisfaction of the query inside its role list,
provided the recursive calls are themselves sound. -/
theorem findLoop_sound {env : Env} {perms : List String} {depth : Nat}
    {rec : List String → RunResult (Option Nat)}
    (hrec : ∀ inh v, rec inh = .val (some v) →
      ∃ k, v = depth + 1 + k ∧ MatchAt env perms inh k) :
    ∀ (roles : List String) (w0 res : Option Nat),
      findLoop env perms depth rec roles w0 = .val res →
      res = w0 ∨ ∃ j, res = some (depth + j) ∧ MatchAt env perms roles j := by
  intro roles
  induction roles with
  | nil =>
    intro w0 res h
    left
    exact (RunResult.val.injEq _ _ ▸ h :).symm
  | cons r rest ih =>
    intro w0 res h
    rw [findLoop_cons] at h
    cases henv : env r with
    | none => rw [henv] at h; cases h
    | some role =>
      rw [henv] at h
      dsimp only at h
      have hsub : ∀ x, x ∈ rest → x ∈ r :: rest := fun x hx => List.mem_cons_of_mem _ hx
      cases hdm : directMatch perms role with
      | true =>
        rw [hdm] at h
        have hm0 : MatchAt env perms (r :: rest) 0 :=
          MatchAt.of_directMatch (List.mem_cons_self r rest) henv hdm
        cases w0 with
        | none =>
          have hup : updateWeight depth true none = some depth := rfl
          rw [hup] at h
          rcases ih (some depth) res h with h1 | ⟨j, hj, hmj⟩
          · exact Or.inr ⟨0, by simpa using h1, hm0⟩
          · exact Or.inr ⟨j, hj, hmj.of_subset hsub⟩
        | some v =>
          by_cases hlt : depth < v
          · have hup : updateWeight depth true (some v) = some depth := by
              simp [updateWeight, hlt]
            rw [hup] at h
            rcases ih (some depth) res h with h1 | ⟨j, hj, hmj⟩
            · exact Or.inr ⟨0, by simpa using h1, hm0⟩
            · exact Or.inr ⟨j, hj, hmj.of_subset hsub⟩
          · have hup : updateWeight depth true (some v) = some v := by
              simp [updateWeight, hlt]
            rw [hup] at h
            rcases ih (some v) res h with h1 | ⟨j, hj, hmj⟩
            · exact Or.inl h1
            · exact Or.inr ⟨j, hj, hmj.of_subset hsub⟩
      | false =>
        rw [hdm] at h
        have hup : updateWeight depth false w0 = w0 := rfl
        rw [hup] at h
        cases w0 with
        | some v =>
          rcases ih (some v) res h with h1 | ⟨j, hj, hmj⟩
          · exact Or.inl h1
          · exact Or.inr ⟨j, hj, hmj.of_subset hsub⟩
        | none =>
          cases hinh : role.inherited with
          | none =>
            rw [hinh] at h
            rcases ih none res h with h1 | ⟨j, hj, hmj⟩
            · exact Or.inl h1
            · exact Or.inr ⟨j, hj, hmj.of_subset hsub⟩
          | some inh =>
            rw [hinh] at h
            dsimp only at h
            cases hr2 : rec inh with
            | err => rw [hr2] at h; cases h
            | fuelOut => rw [hr2] at h; cases h
            | val iw =>
              rw [hr2] at h
              cases iw with
              | none =>
                rcases ih none res h with h1 | ⟨j, hj, hmj⟩
                · exact Or.inl h1
                · exact Or.inr ⟨j, hj, hmj.of_subset hsub⟩
              | some v =>
                obtain ⟨k, hv, hmk⟩ := hrec inh v hr2
                have hmk1 : MatchAt env perms (r :: rest) (k + 1) :=
                  .there (List.mem_cons_self r rest) henv hinh hmk
                rcases ih (some v) res h with h1 | ⟨j, hj, hmj⟩
                · refine Or.inr ⟨k + 1, ?_, hmk1⟩
                  rw [h1, hv]
                  congr 1
                  omega
                · exact Or.inr ⟨j, hj, hmj.of_subset hsub⟩

/-- Completeness of the loop for the unsatisfied result: when the loop
finishes with the weight still unset, no role in its list satisfies the
query at any depth, provided the recursive calls are themselves
complete. -/
theorem findLoop_none_complete {env : Env} {perms : List String} {depth : Nat}
    {rec : List String → RunResult (Option Nat)}
    (hrecN : ∀ inh, rec inh = .val none → ∀ k, ¬ MatchAt env perms inh k) :
    ∀ roles : List String,
      findLoop env perms depth rec roles none = .val none →
      ∀ k, ¬ MatchAt env perms roles k := by
  intro roles
  induction roles with
  | nil =>
    intro _ k hm
    cases hm with
    | here hr _ _ _ _ => cases hr
    | there hr _ _ _ => cases hr
  | cons r rest ih =>
    intro h k hm
    rw [findLoop_cons] at h
    cases henv : env r with
    | none => rw [henv] at h; cases h
    | some role =>
      rw [henv] at h
      dsimp only at h
      cases hdm : directMatch perms role with
      | true =>
        rw [hdm] at h
        have h' : findLoop env perms depth rec rest (some depth) = .val none := h
        obtain ⟨u, hu⟩ := findLoop_some_of_some env perms depth rec rest depth none h'
        cases hu
      | false =>
        rw [hdm] at h
        have hup : updateWeight depth false (none : Option Nat) = none := rfl
        rw [hup] at h
        cases hinh : role.inherited with
        | none =>
          rw [hinh] at h
          dsimp only at h
          cases hm with
          | here hr' henv' hps hp hpp =>
            rcases List.mem_cons.mp hr' with heq | hmem
            · subst heq
              rw [henv] at henv'
              cases henv'
              have : directMatch perms role = true := by
                unfold directMatch
                rw [hps]
                exact List.any_eq_true.mpr ⟨_, hp, decide_eq_true hpp⟩
              rw [hdm] at this
              cases this
            · exact ih h 0 (.here hmem henv' hps hp hpp)
          | there hr' henv' hinh' hm' =>
            rcases List.mem_cons.mp hr' with heq | hmem
            · subst heq
              rw [henv] at henv'
              cases henv'
              rw [hinh] at hinh'
              cases hinh'
            · exact ih h _ (.there hmem henv' hinh' hm')
        | some inh =>
          rw [hinh] at h
          dsimp only at h
          cases hr2 : rec inh with
          | err => rw [hr2] at h; cases h
          | fuelOut => rw [hr2] at h; cases h
          | val iw =>
            rw [hr2] at h
            cases iw with
            | some v =>
              have h' : findLoop env perms depth rec rest (some v) = .val none := h
              obtain ⟨u, hu⟩ := findLoop_some_of_some env perms depth rec rest v none h'
              cases hu
            | none =>
              have hrest : findLoop env perms depth rec rest none = .val none := h
              cases hm with
              | here hr' henv' hps hp hpp =>
                rcases List.mem_cons.mp hr' with heq | hmem
                · subst heq
                  rw [henv] at henv'
                  cases henv'
                  have : directMatch perms role = true := by
                    unfold directMatch
                    rw [hps]
                    exact List.any_eq_true.mpr ⟨_, hp, decide_eq_true hpp⟩
                  rw [hdm] at this
                  cases this
                · exact ih hrest 0 (.here hmem henv' hps hp hpp)
              | there hr' henv' hinh' hm' =>
                rcases List.mem_cons.mp hr' with heq | hmem
                · subst heq
                  rw [henv] at henv'
                  cases henv'
                  rw [hinh] at hinh'
                  cases hinh'
                  exact hrecN inh hr2 _ hm'
                · exact ih hrest _ (.there hmem henv' hinh' hm')

/-- Soundness of the resolver: a produced weight is depth plus a
relative depth at which the query is genuinely satisfied. -/
theorem findMatchingRuleWeight_sound :
    ∀ (fuel depth : Nat) (roles : List String) (env : Env)
      (perms : List String) (u : Nat),
      findMatchingRuleWeight fuel depth roles env perms = .val (some u) →
      ∃ j, u = depth + j ∧ MatchAt env perms roles j := by
  intro fuel
  induction fuel with
  | zero =>
    intro depth roles env perms u h
    cases h
  | succ n ih =>
    intro depth roles env perms u h
    have h' : findLoop env perms depth
        (fun inh => findMatchingRuleWeight n (depth + 1) inh env perms)
        roles none = .val (some u) := h
    have hrec : ∀ inh v,
        findMatchingRuleWeight n (depth + 1) inh env perms = .val (some v) →
        ∃ k, v = depth + 1 + k ∧ MatchAt env perms inh k :=
      fun inh v hv => ih (depth + 1) inh env perms v hv
    rcases findLoop_sound hrec roles none (some u) h' with h0 | ⟨j, hj, hm⟩
    · cases h0
    · exact ⟨j, Option.some.inj hj, hm⟩

/-- Completeness of the resolver for the unsatisfied result: a `false`
outcome means the query is satisfied at no depth whatsoever. -/
theorem findMatchingRuleWeight_unsat :
    ∀ (fuel depth : Nat) (roles : List String) (env : Env)
      (perms : List String),
      findMatchingRuleWeight fuel depth roles env perms = .val none →
      ∀ k, ¬ MatchAt env perms roles k := by
  intro fuel
  induction fuel with
  | zero =>
    intro depth roles env perms h
    cases h
  | succ n ih =>
    intro depth roles env perms h
    have h' : findLoop env perms depth
        (fun inh => findMatchingRuleWeight n (depth + 1) inh env perms)
        roles none = .val none := h
    exact findLoop_none_complete
      (fun inh hv k hk => ih (depth + 1) inh env perms hv k hk) roles h'

/-- C1: the claim that resolution terminates on every role-inheritance
graph, including cyclic ones, returning Unsatisfied when no role on the
cycle satisfies the query, is refuted by the source: on the test
suite's own cyclic fixture (cyclic1 inherits cyclic2 inherits cyclic1)
with the query "read" satisfied by neither role, findMatchingRuleWeight
recurses forever — the fueled embedding exhausts every fuel instead of
ever producing the Unsatisfied result the claim requires. -/
theorem C1_cyclic_resolution_diverges :
    ∀ fuel depth : Nat,
      findMatchingRuleWeight fuel depth ["cyclic1"] cycEnv ["read"] = .fuelOut ∧
      findMatchingRuleWeight fuel depth ["cyclic2"] cycEnv ["read"] = .fuelOut := by
  intro fuel
  induction fuel with
  | zero => exact fun _ => ⟨rfl, rfl⟩
  | succ n ih =>
    intro depth
    have key1 : findMatchingRuleWeight (n + 1) depth ["cyclic1"] cycEnv ["read"] =
        (match findMatchingRuleWeight n (depth + 1) ["cyclic2"] cycEnv ["read"] with
         | .val none => .val none
         | .val (some v) => .val (some v)
         | .err => .err
         | .fuelOut => .fuelOut) := rfl
    have key2 : findMatchingRuleWeight (n + 1) depth ["cyclic2"] cycEnv ["read"] =
        (match findMatchingRuleWeight n (depth + 1) ["cyclic1"] cycEnv ["read"] with
         | .val none => .val none
         | .val (some v) => .val (some v)
         | .err => .err
         | .fuelOut => .fuelOut) := rfl
    refine ⟨?_, ?_⟩
    · rw [key1, (ih (depth + 1)).2]
    · rw [key2, (ih (depth + 1)).1]

/-- C2 counterexample: the resolver does not return the minimal depth
across all branches. On cexEnv with requester roles [r1, r2] and query
["x"], the code returns weight 2 (found through r1's inheritance
chain), yet the query is already satisfied at depth 1 through r2's
parent g — r2's inheritance is never explored because a weight was
already recorded. -/
theorem C2_counterexample :
    findMatchingRuleWeight 10 0 ["r1", "r2"] cexEnv ["x"] = .val (some 2) ∧
    MatchAt cexEnv ["x"] ["r1", "r2"] 1 ∧ 1 < 2 := by
  refine ⟨by decide, ?_, by decide⟩
  have hg : MatchAt cexEnv ["x"] ["g"] 0 :=
    MatchAt.here (show ("g") ∈ ["g"] by decide)
      (show cexEnv ("g") = some ⟨some ["x"], none⟩ from rfl)
      (show (⟨some ["x"], none⟩ : Role).permissions = some ["x"] from rfl)
      (show ("x") ∈ ["x"] by decide)
      (show ("x") ∈ ["x"] by decide)
  exact MatchAt.there (show ("r2") ∈ ["r1", "r2"] by decide)
    (show cexEnv ("r2") = some ⟨none, some ["g"]⟩ from rfl)
    (show (⟨none, some ["g"]⟩ : Role).inherited = some ["g"] from rfl) hg

/-- C2 (amended): on every input on which the resolver terminates, a
returned weight is a depth at which the query is genuinely satisfied —
though not necessarily the minimal such depth across all branches,
since inheritance of later sibling roles is skipped once a weight is
recorded — and the Unsatisfied result is returned exactly when no
inheritance branch ever covers the query. -/
theorem C2_weight_sound_or_unsat (fuel : Nat) (roles : List String)
    (env : Env) (perms : List String) (res : Option Nat)
    (h : findMatchingRuleWeight fuel 0 roles env perms = .val res) :
    (∀ u, res = some u → MatchAt env perms roles u) ∧
    (res = none → ∀ d, ¬ MatchAt env perms roles d) := by
  constructor
  · intro u hu
    subst hu
    obtain ⟨j, hj, hm⟩ := findMatchingRuleWeight_sound fuel 0 roles env perms u h
    rwa [hj, Nat.zero_add]
  · intro hres d
    subst hres
    exact findMatchingRuleWeight_unsat fuel 0 roles env perms h d

/-- C2 witness: the amended theorem applied to the counterexample
input, where the returned weight 2 is indeed a satisfying depth. -/
theorem C2_weight_sound_or_unsat_witness :
    MatchAt cexEnv ["x"] ["r1", "r2"] 2 :=
  (C2_weight_sound_or_unsat 10 ["r1", "r2"] cexEnv ["x"] (some 2)
    (by decide)).1 2 rfl

/-- C3 counterexample: resolution does throw for unknown roles. With a
provider that returns undefined for every role name, resolving any
query over the single requester role "ghost" reads `role.permissions`
on `undefined` and throws a TypeError (the err outcome), instead of
treating the unknown role as empty and returning Unsatisfied. -/
theorem C3_counterexample :
    findMatchingRuleWeight 5 0 ["ghost"] (fun _ => none) ["p"] = .err := by
  decide

/-- C3 (amended): a fetched role whose permission list and parent list
are both missing contributes nothing and resolution continues with the
remaining roles exactly as if the role were not listed; but a role name
the provider resolves to undefined makes the resolver throw a
TypeError at request time, so only missing lists — not missing roles —
are tolerated. -/
theorem C3_empty_role_skipped (fuel depth : Nat) (r : String)
    (rest : List String) (env : Env) (perms : List String)
    (h : env r = some ⟨none, none⟩) :
    findMatchingRuleWeight (fuel + 1) depth (r :: rest) env perms =
      findMatchingRuleWeight (fuel + 1) depth rest env perms := by
  show findLoop env perms depth _ (r :: rest) none =
    findLoop env perms depth _ rest none
  rw [findLoop_cons, h]
  rfl

/-- C3 witness: a role with both lists missing is skipped on a concrete
environment. -/
theorem C3_empty_role_skipped_witness :
    findMatchingRuleWeight 3 0 ["e", "b"] c3Env ["x"] =
      findMatchingRuleWeight 3 0 ["b"] c3Env ["x"] :=
  C3_empty_role_skipped 2 0 ("e") ["b"] c3Env ["x"] rfl

/-- C4: a deny rule passes through when its query is Unsatisfied, and
when the query resolves to weight w it restricts exactly when the
state's allowed weight is unset or w is at most the allowed weight,
passing through when the allowed weight is strictly below w. -/
theorem C4_deny_weight_arbitration (fuel : Nat) (ctx : Ctx)
    (provider : Provider) (userRoles perms : List String) (res : Option Nat)
    (hp : ctx.accessProvider = some provider)
    (hu : provider.userRoles = some userRoles)
    (hw : findMatchingRuleWeight fuel 0 userRoles provider.env perms = .val res) :
    (res = none → denyPermissions fuel perms ctx = .val (.pass, ctx)) ∧
    (∀ w, res = some w →
      ((ctx.allowedWeight = none ∨ ∃ aw, ctx.allowedWeight = some aw ∧ w ≤ aw) →
        denyPermissions fuel perms ctx = .val (.restrict, ctx)) ∧
      (∀ aw, ctx.allowedWeight = some aw → aw < w →
        denyPermissions fuel perms ctx = .val (.pass, ctx))) := by
  refine ⟨?_, ?_⟩
  · intro hres
    subst hres
    unfold denyPermissions isDenied
    rw [hp]
    dsimp only
    rw [hu]
    dsimp only
    rw [hw]
  · intro w hres
    subst hres
    refine ⟨?_, ?_⟩
    · intro hcase
      unfold denyPermissions isDenied
      rw [hp]
      dsimp only
      rw [hu]
      dsimp only
      rw [hw]
      dsimp only
      rcases hcase with haw | ⟨aw, haw, hle⟩
      · rw [haw]
      · rw [haw]
        dsimp only
        rw [if_neg (by omega)]
    · intro aw haw hlt
      unfold denyPermissions isDenied
      rw [hp]
      dsimp only
      rw [hu]
      dsimp only
      rw [hw]
      dsimp only
      rw [haw]
      dsimp only
      rw [if_pos hlt]

/-- C4 witness: with the repository's role fixture, requester editor,
an allowed weight 0 already recorded (update was granted directly), and
a deny query read resolving at weight 1, the deny passes through. -/
theorem C4_deny_weight_arbitration_witness :
    denyPermissions 5 ["read"] (Ctx.mk (some ⟨rolesEnv, some ["editor"]⟩) (some 0)) =
      .val (.pass, Ctx.mk (some ⟨rolesEnv, some ["editor"]⟩) (some 0)) :=
  ((C4_deny_weight_arbitration 5
      (Ctx.mk (some ⟨rolesEnv, some ["editor"]⟩) (some 0))
      ⟨rolesEnv, some ["editor"]⟩ ["editor"] ["read"] (some 1)
      rfl rfl (by decide)).2 1 rfl).2 0 rfl (by decide)

/-- C9: when an allow query resolves to Unsatisfied, the allow
middleware still passes the request through without touching the
recorded weight whenever an allowed weight is already recorded; it
restricts (again without touching the state) only when no allowed
weight has been recorded yet. -/
theorem C9_allow_unsat_passes_when_recorded (fuel : Nat) (ctx : Ctx)
    (provider : Provider) (userRoles perms : List String)
    (hp : ctx.accessProvider = some provider)
    (hu : provider.userRoles = some userRoles)
    (hw : findMatchingRuleWeight fuel 0 userRoles provider.env perms = .val none) :
    (ctx.allowedWeight ≠ none →
      allowPermissions fuel perms ctx = .val (.pass, ctx)) ∧
    (ctx.allowedWeight = none →
      allowPermissions fuel perms ctx = .val (.restrict, ctx)) := by
  refine ⟨?_, ?_⟩
  · intro hne
    cases haw : ctx.allowedWeight with
    | none => exact absurd haw hne
    | some a =>
      unfold allowPermissions isAllowed
      rw [hp]
      dsimp only
      rw [hu]
      dsimp only
      rw [hw]
      dsimp only
      rw [haw]
  · intro haw
    unfold allowPermissions isAllowed
    rw [hp]
    dsimp only
    rw [hu]
    dsimp only
    rw [hw]
    dsimp only
    rw [haw]

/-- C9 witness: requester editor with allowed weight 3 already
recorded; the query manage is Unsatisfied, yet the allow passes through
with the state unchanged. -/
theorem C9_allow_unsat_passes_when_recorded_witness :
    allowPermissions 5 ["manage"]
      (Ctx.mk (some ⟨rolesEnv, some ["editor"]⟩) (some 3)) =
      .val (.pass, Ctx.mk (some ⟨rolesEnv, some ["editor"]⟩) (some 3)) :=
  (C9_allow_unsat_passes_when_recorded 5
      (Ctx.mk (some ⟨rolesEnv, some ["editor"]⟩) (some 3))
      ⟨rolesEnv, some ["editor"]⟩ ["editor"] ["manage"]
      rfl rfl (by decide)).1 (by decide)

/-- C10: on a context without an installed access provider, every allow
middleware passes the request through unconditionally while every deny
middleware restricts unconditionally; likewise, in the rbac-a-based
variant, a context without the rbac property makes allowMiddleware
fall through to next() and denyMiddleware answer 403, whatever the
query resolution would have been. -/
theorem C10_no_provider_allow_passes_deny_restricts (fuel : Nat)
    (perms : List String) (ctx : Ctx) (res : Option Nat)
    (h : ctx.accessProvider = none) :
    allowPermissions fuel perms ctx = .val (.pass, ctx) ∧
    denyPermissions fuel perms ctx = .val (.restrict, ctx) ∧
    allowMiddleware false res = .pass ∧
    denyMiddleware false res = .restrict := by
  refine ⟨?_, ?_, rfl, rfl⟩
  · unfold allowPermissions isAllowed
    rw [h]
  · unfold denyPermissions isDenied
    rw [h]

/-- C10 witness: on the bare context the allow rule passes and the deny
rule restricts. -/
theorem C10_no_provider_witness :
    allowPermissions 1 ["read"] (Ctx.mk none none) =
      .val (.pass, Ctx.mk none none) ∧
    denyPermissions 1 ["read"] (Ctx.mk none none) =
      .val (.restrict, Ctx.mk none none) ∧
    allowMiddleware false (some 1) = .pass ∧
    denyMiddleware false (some 1) = .restrict :=
  C10_no_provider_allow_passes_deny_restricts 1 ["read"] (Ctx.mk none none)
    (some 1) rfl

/-- weightLe is reflexive. -/
theorem weightLe_refl (w : Option Nat) : weightLe w w := by
  cases w with
  | none => exact Or.inl rfl
  | some a => exact Or.inr ⟨a, a, rfl, rfl, le_refl a⟩

/-- isAllowed can only set an unset allowed weight or lower a set one. -/
theorem isAllowed_weightLe (fuel : Nat) (ctx : Ctx) (perms : List String)
    (b : Bool) (ctx' : Ctx)
    (h : isAllowed fuel ctx perms = .val (b, ctx')) :
    weightLe ctx'.allowedWeight ctx.allowedWeight := by
  unfold isAllowed at h
  cases hp : ctx.accessProvider with
  | none =>
    rw [hp] at h
    dsimp only at h
    injection h with h1
    injection h1 with hb hc
    subst hc
    exact weightLe_refl _
  | some provider =>
    rw [hp] at h
    dsimp only at h
    cases hu : provider.userRoles with
    | none => rw [hu] at h; cases h
    | some userRoles =>
      rw [hu] at h
      dsimp only at h
      cases hw : findMatchingRuleWeight fuel 0 userRoles provider.env perms with
      | err => rw [hw] at h; cases h
      | fuelOut => rw [hw] at h; cases h
      | val res =>
        rw [hw] at h
        cases res with
        | none =>
          cases haw : ctx.allowedWeight with
          | none =>
            rw [haw] at h
            dsimp only at h
            injection h with h1
            injection h1 with hb hc
            subst hc
            rw [haw]
            exact weightLe_refl none
          | some a =>
            rw [haw] at h
            dsimp only at h
            injection h with h1
            injection h1 with hb hc
            subst hc
            rw [haw]
            exact weightLe_refl (some a)
        | some rw2 =>
          cases haw : ctx.allowedWeight with
          | none =>
            rw [haw] at h
            dsimp only at h
            injection h with h1
            injection h1 with hb hc
            subst hc
            exact Or.inl rfl
          | some a =>
            rw [haw] at h
            dsimp only at h
            injection h with h1
            injection h1 with hb hc
            subst hc
            exact Or.inr ⟨min a rw2, a, rfl, rfl, min_le_left a rw2⟩

/-- The deny part of checkPermissions returns its context unchanged. -/
theorem checkDenyPart_ctx (fuel : Nat) (dp : Option (List String))
    (c : Ctx) (o : Outcome) (c' : Ctx)
    (h : checkDenyPart fuel dp c = .val (o, c')) : c' = c := by
  unfold checkDenyPart at h
  cases dp with
  | none =>
    injection h with h1
    injection h1 with ho hc
    exact hc.symm
  | some dperms =>
    dsimp only at h
    cases hd : isDenied fuel c dperms with
    | err => rw [hd] at h; cases h
    | fuelOut => rw [hd] at h; cases h
    | val b =>
      rw [hd] at h
      cases b with
      | true =>
        injection h with h1
        injection h1 with ho hc
        exact hc.symm
      | false =>
        injection h with h1
        injection h1 with ho hc
        exact hc.symm

/-- C7: within one request the recorded allowed weight starts unset
(the rbac middleware installs `_allowedWeight = null`), and every
allow, deny or check middleware that completes can only leave it equal,
set it when unset, or lower it — never raise it or reset it to unset;
moreover a satisfied allow resolution records exactly the minimum of
the current weight and the resolved one (or sets it when unset). -/
theorem C7_allowedWeight_starts_unset_and_monotone :
    (∀ provider : Provider, (middlewareCtx provider).allowedWeight = none) ∧
    (∀ (fuel : Nat) (ctx : Ctx) (op : RuleOp) (o : Outcome) (ctx' : Ctx),
      runOp fuel ctx op = .val (o, ctx') →
      weightLe ctx'.allowedWeight ctx.allowedWeight) ∧
    (∀ (fuel : Nat) (ctx : Ctx) (provider : Provider)
      (userRoles perms : List String) (w : Nat),
      ctx.accessProvider = some provider →
      provider.userRoles = some userRoles →
      findMatchingRuleWeight fuel 0 userRoles provider.env perms = .val (some w) →
      isAllowed fuel ctx perms = .val (true,
        { ctx with allowedWeight := some (recordWeight ctx.allowedWeight w) })) := by
  refine ⟨fun _ => rfl, ?_, ?_⟩
  · intro fuel ctx op o ctx' h
    cases op with
    | allowRule perms =>
      unfold runOp allowPermissions at h
      dsimp only at h
      cases hA : isAllowed fuel ctx perms with
      | err => rw [hA] at h; cases h
      | fuelOut => rw [hA] at h; cases h
      | val bc =>
        obtain ⟨b, ctxA⟩ := bc
        rw [hA] at h
        cases b with
        | true =>
          injection h with h1
          injection h1 with ho hc
          subst hc
          exact isAllowed_weightLe fuel ctx perms true ctxA hA
        | false =>
          injection h with h1
          injection h1 with ho hc
          subst hc
          exact isAllowed_weightLe fuel ctx perms false ctxA hA
    | denyRule perms =>
      unfold runOp denyPermissions at h
      dsimp only at h
      cases hD : isDenied fuel ctx perms with
      | err => rw [hD] at h; cases h
      | fuelOut => rw [hD] at h; cases h
      | val b =>
        rw [hD] at h
        cases b with
        | true =>
          injection h with h1
          injection h1 with ho hc
          subst hc
          exact weightLe_refl _
        | false =>
          injection h with h1
          injection h1 with ho hc
          subst hc
          exact weightLe_refl _
    | checkRule ap dp =>
      unfold runOp checkPermissions at h
      dsimp only at h
      cases ap with
      | none =>
        have := checkDenyPart_ctx fuel dp ctx o ctx' h
        subst this
        exact weightLe_refl _
      | some aperms =>
        dsimp only at h
        cases hA : isAllowed fuel ctx aperms with
        | err => rw [hA] at h; cases h
        | fuelOut => rw [hA] at h; cases h
        | val bc =>
          obtain ⟨b, ctxA⟩ := bc
          rw [hA] at h
          cases b with
          | true =>
            have := checkDenyPart_ctx fuel dp ctxA o ctx' h
            subst this
            exact isAllowed_weightLe fuel ctx aperms true _ hA
          | false =>
            injection h with h1
            injection h1 with ho hc
            subst hc
            exact isAllowed_weightLe fuel ctx aperms false ctxA hA
  · intro fuel ctx provider userRoles perms w hp hu hw
    unfold isAllowed
    rw [hp]
    dsimp only
    rw [hu]
    dsimp only
    rw [hw]
    cases haw : ctx.allowedWeight with
    | none => rfl
    | some a => rfl

/-- C7 witness: starting from the context the middleware installs for
the test fixture, an allow on read records weight 1, which is a lawful
monotone update from the unset state. -/
theorem C7_allowedWeight_monotone_witness :
    (middlewareCtx ⟨rolesEnv, some ["editor"]⟩).allowedWeight = none ∧
    weightLe (Ctx.mk (some ⟨rolesEnv, some ["editor"]⟩) (some 1)).allowedWeight
      (middlewareCtx ⟨rolesEnv, some ["editor"]⟩).allowedWeight ∧
    isAllowed 5 (middlewareCtx ⟨rolesEnv, some ["editor"]⟩) ["read"] =
      .val (true, Ctx.mk (some ⟨rolesEnv, some ["editor"]⟩) (some 1)) :=
  ⟨C7_allowedWeight_starts_unset_and_monotone.1 ⟨rolesEnv, some ["editor"]⟩,
   C7_allowedWeight_starts_unset_and_monotone.2.1 5
     (middlewareCtx ⟨rolesEnv, some ["editor"]⟩) (.allowRule ["read"]) .pass
     (Ctx.mk (some ⟨rolesEnv, some ["editor"]⟩) (some 1)) rfl,
   C7_allowedWeight_starts_unset_and_monotone.2.2 5
     (middlewareCtx ⟨rolesEnv, some ["editor"]⟩) ⟨rolesEnv, some ["editor"]⟩
     ["editor"] ["read"] 1 rfl rfl (by decide)⟩

/-- C5: with at least one of the allow/deny queries given, the check
middleware grants exactly when the allowed weight is satisfied (not
NaN, with an absent allow key defaulting to +infinity) and either the
denied weight is Unsatisfied or the allowed weight is strictly below
the denied weight. -/
theorem C5_check_grants_iff (allowKey denyKey : Option (Option Nat))
    (h : allowKey ≠ none ∨ denyKey ≠ none) :
    (checkMiddleware allowKey denyKey = .pass ↔
      specCheckGrant allowKey denyKey) := by
  rcases allowKey with _ | (_ | wa) <;> rcases denyKey with _ | (_ | wd) <;>
    simp_all [checkMiddleware, specCheckGrant, Priority.ofRes, Priority.isNaN,
      Priority.jle]

/-- C5 witness: allowed weight 1 against denied weight 3 grants,
matching the specification's strict comparison. -/
theorem C5_check_grants_iff_witness :
    (checkMiddleware (some (some 1)) (some (some 3)) = .pass ↔
      specCheckGrant (some (some 1)) (some (some 3))) :=
  C5_check_grants_iff (some (some 1)) (some (some 3)) (Or.inl (by decide))

/-- C6 counterexample: constructing a check rule whose only permission
specification is the empty string does fail at construction time, but
with the 'Missing permissions' error, not the claimed
InvalidPermissionQuery ('Invalid permissions'): the empty string is
falsy, so check treats the key as absent. -/
theorem C6_counterexample :
    check (some (PermSpec.str (""))) none = .error .missingPermissions ∧
    RuleError.missingPermissions ≠ RuleError.invalidPermissions :=
  ⟨rfl, by decide⟩

/-- C6 (amended): every empty permission specification (empty string,
empty list, or a list of only non-string or empty entries) makes allow
and deny fail at construction with InvalidPermissionQuery ('Invalid
permissions'); a check rule given only such a specification also fails
at construction, with InvalidPermissionQuery when the value is truthy
(a list) but with MissingPermissions when it is an empty string, which
check's truthiness test treats as an absent key. -/
theorem C6_empty_spec_construction_fails (spec : PermSpec)
    (h : IsEmptySpec spec) :
    allow spec = .error .invalidPermissions ∧
    deny spec = .error .invalidPermissions ∧
    check (some spec) none =
      .error (if jsTruthy spec then RuleError.invalidPermissions
              else RuleError.missingPermissions) := by
  have hprep : preparePermissionList spec = .error .invalidPermissions := by
    cases spec with
    | str s =>
      have hs : s = "" := h
      subst hs
      rfl
    | list l =>
      have hfil : l.filter entryKeep = [] := by
        rw [List.filter_eq_nil_iff]
        intro e he
        have he' := h e he
        cases e with
        | str s =>
          have hs : s = "" := he'
          subst hs
          decide
        | other => decide
      unfold preparePermissionList specEntries
      dsimp only
      rw [hfil]
      rfl
    | otherTruthy => cases h
    | otherFalsy => cases h
  refine ⟨hprep, hprep, ?_⟩
  unfold check prepOpt
  dsimp only
  cases htr : jsTruthy spec with
  | false => rfl
  | true =>
    rw [hprep]
    rfl

/-- C6 witness: the amended theorem at the empty list, which is truthy
and therefore fails with InvalidPermissionQuery everywhere. -/
theorem C6_empty_spec_construction_fails_witness :
    allow (PermSpec.list []) = .error .invalidPermissions ∧
    deny (PermSpec.list []) = .error .invalidPermissions ∧
    check (some (PermSpec.list [])) none =
      .error (if jsTruthy (PermSpec.list []) then RuleError.invalidPermissions
              else RuleError.missingPermissions) :=
  C6_empty_spec_construction_fails (PermSpec.list [])
    (fun e he => absurd he (List.not_mem_nil e))

/-- C8 counterexample: the parser accepts the specification " ,read"
and outputs the token list ["", "read"], which contains the empty
token: the filter for empty entries runs before trimming, so a
whitespace-only entry survives and becomes empty only after its trim. -/
theorem C8_counterexample :
    preparePermissionList (PermSpec.str (" ,read")) = .ok ["", "read"] ∧
    ("" : String).isEmpty = true :=
  ⟨rfl, rfl⟩

/-- C8 (amended): every accepted permission specification yields a
non-empty token list in which every token is the trim of some entry
that was a string of non-zero length before trimming — non-string and
zero-length entries are dropped — but a whitespace-only entry passes
the pre-trim filter and yields an empty token in the output. -/
theorem C8_tokens_are_trims_of_nonempty_entries (spec : PermSpec)
    (toks : List String) (h : preparePermissionList spec = .ok toks) :
    toks ≠ [] ∧ ∀ t ∈ toks, ∃ s : String, t = jsTrim s ∧ s.isEmpty = false := by
  unfold preparePermissionList at h
  cases hse : specEntries spec with
  | none => rw [hse] at h; cases h
  | some entries =>
    rw [hse] at h
    dsimp only at h
    by_cases hne :
        ((entries.filter entryKeep).map fun e => jsTrim (entryVal e)).isEmpty
    · rw [if_pos hne] at h
      cases h
    · rw [if_neg hne] at h
      injection h with h1
      subst h1
      constructor
      · intro hnil
        rw [hnil] at hne
        exact hne rfl
      · intro t ht
        obtain ⟨e, he, hte⟩ := List.mem_map.mp ht
        obtain ⟨hel, hkeep⟩ := List.mem_filter.mp he
        cases e with
        | str s =>
          refine ⟨s, hte.symm, ?_⟩
          simpa [entryKeep] using hkeep
        | other => cases hkeep

/-- C8 witness: the amended theorem at the specification "a, b", whose
tokens a and b are trims of the non-empty entries "a" and " b". -/
theorem C8_tokens_are_trims_witness :
    (["a", "b"] : List String) ≠ [] ∧
    ∀ t ∈ (["a", "b"] : List String),
      ∃ s : String, t = jsTrim s ∧ s.isEmpty = false :=
  C8_tokens_are_trims_of_nonempty_entries (PermSpec.str ("a, b")) ["a", "b"] rfl

example : findMatchingRuleWeight 5 0 ["cyclic1"] cycEnv ["crc1"] = .val (some 0) := by decide

example : findMatchingRuleWeight 5 0 ["cyclic1"] cycEnv ["crc2"] = .val (some 1) := by decide

example : findMatchingRuleWeight 50 0 ["cyclic1"] cycEnv ["read"] = .fuelOut := by decide

example : findMatchingRuleWeight 10 0 ["r1", "r2"] cexEnv ["x"] = .val (some 2) := by decide

example : findMatchingRuleWeight 5 0 ["ghost"] (fun _ => none) ["p"] = .err := by decide

example : findMatchingRuleWeight 5 0 ["editor"] rolesEnv ["read"] = .val (some 1) := by decide

example : findMatchingRuleWeight 5 0 ["editor"] rolesEnv ["foo"] = .val (some 2) := by decide

example : findMatchingRuleWeight 5 0 ["editor"] rolesEnv ["update"] = .val (some 0) := by decide

example : preparePermissionList (PermSpec.str (" ,read")) = .ok ["", "read"] := rfl

example : preparePermissionList (PermSpec.str ("a, b")) = .ok ["a", "b"] := rfl

example : preparePermissionList (PermSpec.str ("")) = .error .invalidPermissions := rfl

example : check (some (PermSpec.str (""))) none = .error .missingPermissions := rfl

example : check (some (PermSpec.list [])) none = .error .invalidPermissions := rfl

end KoaRbac
